import Mathlib

/-! Verification of the structured-event capture layer (custom_layer.rs,
serde_json_adapter.rs) against its specification. The Rust code is shallowly
embedded: serde_json values become the Json inductive, the IndexMap backing
CustomLayerTracedData becomes an insertion-ordered association list, the
valuable Value type becomes VValue, and interior mutability (the one-shot
Cell in ScopeSerializer) becomes explicit state passing.
-/

namespace TracingValuable

/-- Opaque stand-in for an IEEE double. The payload is carried verbatim and
never interpreted; the finite flag records whether the value is finite, which
is what decides how serde_json serializes it (non-finite doubles serialize to
null). -/
structure F64 where
  finite : Bool
  payload : String
deriving DecidableEq, Repr

/-- Model of the serde_json Number type: an unsigned 64-bit integer, a
negative signed 64-bit integer, or a double, mirroring the three-variant N
enum of serde_json (without the arbitrary-precision feature). -/
inductive JNumber where
  | posInt (n : Nat)
  | negInt (i : Int)
  | float (f : F64)
deriving DecidableEq, Repr

/-- Model of serde_json Value. Objects are insertion-ordered key/value lists,
matching the order-preserving representation used alongside indexmap. -/
inductive Json where
  | null
  | bool (b : Bool)
  | num (n : JNumber)
  | str (s : String)
  | arr (items : List Json)
  | obj (entries : List (String × Json))

/-- serde_json Number.as_u64: only the unsigned variant converts. -/
def JNumber.as_u64 : JNumber → Option Nat
  | .posInt n => some n
  | _ => none

/-- serde_json Number.as_i64: the unsigned variant when it fits in i64, or
the negative variant. -/
def JNumber.as_i64 : JNumber → Option Int
  | .posInt n => if n ≤ 2 ^ 63 - 1 then some (n : Int) else none
  | .negInt i => some i
  | .float _ => none

/-- serde_json Number.as_f64: always succeeds on the three-variant number
(integers are converted, doubles are returned as stored). -/
def JNumber.as_f64 : JNumber → Option F64
  | .posInt n => some ⟨true, toString n⟩
  | .negInt i => some ⟨true, toString i⟩
  | .float f => some f

/-- Range constraints that serde_json data always satisfies: unsigned payloads
fit in 64 bits, negative payloads fit in signed 64 bits and are negative,
doubles are finite. -/
def JNumber.wfNum : JNumber → Bool
  | .posInt n => decide (n < 2 ^ 64)
  | .negInt i => decide (-(2 ^ 63) ≤ i) && decide (i < 0)
  | .float f => f.finite

mutual

/-- Well-formedness of a modeled serde_json value: every numeric payload is
in range (see JNumber.wfNum), recursively. Every value serde_json actually
builds satisfies this. -/
def Json.wf : Json → Bool
  | .null => true
  | .bool _ => true
  | .num n => n.wfNum
  | .str _ => true
  | .arr items => Json.wfList items
  | .obj entries => Json.wfObj entries

/-- Well-formedness of every element of an array. -/
def Json.wfList : List Json → Bool
  | [] => true
  | j :: rest => Json.wf j && Json.wfList rest

/-- Well-formedness of every value of an object. -/
def Json.wfObj : List (String × Json) → Bool
  | [] => true
  | (_, v) :: rest => Json.wf v && Json.wfObj rest

end

/-- IndexMap-style insert on an ordered association list: overwrite the value
in place when the key is already present, append at the end otherwise. -/
def insertEntry : List (String × Json) → String → Json → List (String × Json)
  | [], k, v => [(k, v)]
  | (k0, v0) :: rest, k, v =>
      if k0 = k then (k0, v) :: rest else (k0, v0) :: insertEntry rest k v

/-- First-match lookup on an ordered association list. -/
def findEntry : List (String × Json) → String → Option Json
  | [], _ => none
  | (k0, v0) :: rest, k => if k0 = k then some v0 else findEntry rest k

/-- CustomLayerTracedData from custom_layer.rs: an insertion-ordered map from
field name to JSON value (an IndexMap from static strings to serde_json
values). -/
structure CustomLayerTracedData where
  entries : List (String × Json)

/-- The Default impl: an empty map. -/
def CustomLayerTracedData.empty : CustomLayerTracedData := ⟨[]⟩

/-- CustomLayerTracedData.insert: IndexMap insert (the replaced value, which
the source discards at every call site, is not returned here). -/
def CustomLayerTracedData.insert (m : CustomLayerTracedData) (k : String)
    (v : Json) : CustomLayerTracedData :=
  ⟨insertEntry m.entries k v⟩

/-- Iteration order of the keys of the map. -/
def CustomLayerTracedData.keys (m : CustomLayerTracedData) : List String :=
  m.entries.map Prod.fst

/-- Lookup in the map. -/
def CustomLayerTracedData.find (m : CustomLayerTracedData) (k : String) :
    Option Json :=
  findEntry m.entries k

/-- The Serialize impl of CustomLayerTracedData: emit every entry in map
order. -/
def CustomLayerTracedData.toJson (m : CustomLayerTracedData) : Json :=
  .obj m.entries

/-- Model of valuable Value restricted to the shapes SerdeJsonAdapter
produces: the Listable and Mappable variants carry the underlying serde_json
array or object that the adapter wraps. -/
inductive VValue where
  | unit
  | bool (b : Bool)
  | u64 (n : Nat)
  | i64 (i : Int)
  | f64 (f : F64)
  | str (s : String)
  | listable (items : List Json)
  | mappable (entries : List (String × Json))

/-- SerdeJsonAdapter.as_value from serde_json_adapter.rs: nulls become unit,
numbers try as_u64, then as_i64, then as_f64, falling back to unit, arrays
and objects become Listable and Mappable wrappings of the adapter itself. -/
def as_value : Json → VValue
  | .null => .unit
  | .bool b => .bool b
  | .num n =>
      match n.as_u64 with
      | some u => .u64 u
      | none =>
          match n.as_i64 with
          | some i => .i64 i
          | none =>
              match n.as_f64 with
              | some f => .f64 f
              | none => .unit
  | .str s => .str s
  | .arr items => .listable items
  | .obj entries => .mappable entries

/-- serde_json Number produced when serializing a u64. -/
def numberFromU64 (n : Nat) : JNumber := .posInt n

/-- serde_json Number produced when serializing an i64: nonnegative values
are stored in the unsigned variant. -/
def numberFromI64 (i : Int) : JNumber :=
  if 0 ≤ i then .posInt i.toNat else .negInt i

/-- serde_json value produced when serializing an f64 (Number.from_f64):
non-finite doubles become null. -/
def jsonOfF64 (f : F64) : Json :=
  if f.finite then .num (.float f) else .null

/-- Scalar leg of serializing an adapted number: what valuable_serde emits
for as_value of a number, written as the same as_u64 / as_i64 / as_f64
cascade the adapter uses. -/
def serializeAdaptedNum (n : JNumber) : Json :=
  match n.as_u64 with
  | some u => .num (numberFromU64 u)
  | none =>
      match n.as_i64 with
      | some i => .num (numberFromI64 i)
      | none =>
          match n.as_f64 with
          | some f => jsonOfF64 f
          | none => .null

mutual

/-- The element path of the adapter under valuable_serde: serializing
as_value of a serde_json value. This is the composite that visit runs for
every array element and object value (each wrapped in SerdeJsonAdapter
again); the lemma serializeVal_as_value below equates it with the direct
composite. -/
def serializeAdapted : Json → Json
  | .null => .null
  | .bool b => .bool b
  | .num n => serializeAdaptedNum n
  | .str s => .str s
  | .arr items => .arr (visitList items)
  | .obj entries => .obj (visitObj entries)

/-- SerdeJsonAdapter.visit on an array under a sequence serializer: each item
is adapted and serialized as one element, in order. -/
def visitList : List Json → List Json
  | [] => []
  | j :: rest => serializeAdapted j :: visitList rest

/-- SerdeJsonAdapter.visit on an object under a map serializer: each key is
emitted as a string and each value adapted and serialized, in order. -/
def visitObj : List (String × Json) → List (String × Json)
  | [] => []
  | (k, v) :: rest => (k, serializeAdapted v) :: visitObj rest

end

/-- valuable_serde serialization composed with the json macro, as used by
record_value: scalars map to the corresponding serde_json scalars, Listable
and Mappable values are traversed through SerdeJsonAdapter.visit. -/
def serializeVal : VValue → Json
  | .unit => .null
  | .bool b => .bool b
  | .u64 n => .num (numberFromU64 n)
  | .i64 i => .num (numberFromI64 i)
  | .f64 f => jsonOfF64 f
  | .str s => .str s
  | .listable items => .arr (visitList items)
  | .mappable entries => .obj (visitObj entries)

/-- SPECIAL_JSON_PREFIX from custom_layer.rs. -/
def SPECIAL_JSON_PREFIX : String := "!custom_layer_tracing_json!"

/-- Rust str.strip_prefix: the remainder when the prefix matches, none
otherwise. -/
def strip_prefix (s p : String) : Option String :=
  if p.data.isPrefixOf s.data then some ⟨s.data.drop p.data.length⟩ else none

/-- JSON whitespace accepted by serde_json. -/
def isJsonWs (c : Char) : Bool :=
  c = ' ' || c = '\t' || c = '\n' || c = '\r'

/-- Skip leading whitespace. -/
def skipWs : List Char → List Char
  | [] => []
  | c :: rest => if isJsonWs c then skipWs rest else c :: rest

/-- Longest leading run of decimal digits. -/
def takeDigits : List Char → List Char × List Char
  | [] => ([], [])
  | c :: rest =>
      if c.isDigit then
        let (ds, r) := takeDigits rest
        (c :: ds, r)
      else ([], c :: rest)

/-- Numeric value of a digit run. -/
def natOfDigits (ds : List Char) : Nat :=
  ds.foldl (fun acc c => acc * 10 + (c.toNat - 48)) 0

/-- Integer part of a JSON number: a single zero, or a nonzero digit followed
by more digits; a digit right after a leading zero is rejected, as serde_json
does. -/
def parseIntPart : List Char → Option (List Char × List Char)
  | [] => none
  | c :: rest =>
      if c = '0' then
        match rest with
        | d :: _ => if d.isDigit then none else some ([c], rest)
        | [] => some ([c], [])
      else if c.isDigit then
        let (ds, r) := takeDigits rest
        some (c :: ds, r)
      else none

/-- Optional fraction part: a dot must be followed by at least one digit. -/
def parseFracPart : List Char → Option (Bool × List Char)
  | '.' :: rest =>
      (match takeDigits rest with
       | ([], _) => none
       | (_ :: _, r) => some (true, r))
  | cs => some (false, cs)

/-- Optional exponent part: e or E, an optional sign, then at least one
digit. -/
def parseExpPart : List Char → Option (Bool × List Char)
  | [] => some (false, [])
  | c :: rest =>
      if c = 'e' || c = 'E' then
        let rest2 :=
          match rest with
          | s :: r2 => if s = '+' || s = '-' then r2 else s :: r2
          | [] => []
        match takeDigits rest2 with
        | ([], _) => none
        | (_ :: _, r) => some (true, r)
      else some (false, c :: rest)

/-- serde_json number parsing: optional minus, integer part, optional
fraction and exponent. Plain integers classify as the unsigned variant when
nonnegative (minus zero normalizes to unsigned zero) and as the negative
signed variant otherwise; any fraction or exponent, and integers beyond the
64-bit ranges, yield the double variant, carrying the raw token. Rejection of
doubles that overflow to infinity is not modeled (no property here depends
on it). -/
def parseNumber (cs : List Char) : Option (JNumber × List Char) := do
  let (neg, cs1) :=
    match cs with
    | '-' :: rest => (true, rest)
    | _ => (false, cs)
  let (intDigits, cs2) ← parseIntPart cs1
  let (hasFrac, cs3) ← parseFracPart cs2
  let (hasExp, cs4) ← parseExpPart cs3
  let token : String := ⟨cs.take (cs.length - cs4.length)⟩
  if hasFrac || hasExp then
    pure (.float ⟨true, token⟩, cs4)
  else
    let m := natOfDigits intDigits
    if neg then
      if m = 0 then pure (.posInt 0, cs4)
      else if m ≤ 2 ^ 63 then pure (.negInt (-(m : Int)), cs4)
      else pure (.float ⟨true, token⟩, cs4)
    else
      if m < 2 ^ 64 then pure (.posInt m, cs4)
      else pure (.float ⟨true, token⟩, cs4)

/-- Hex digit value. -/
def hexVal (c : Char) : Option Nat :=
  if c.isDigit then some (c.toNat - 48)
  else if 'a' ≤ c ∧ c ≤ 'f' then some (c.toNat - 87)
  else if 'A' ≤ c ∧ c ≤ 'F' then some (c.toNat - 55)
  else none

/-- Four hex digits. -/
def parseHex4 : List Char → Option (Nat × List Char)
  | c1 :: c2 :: c3 :: c4 :: rest => do
      let h1 ← hexVal c1
      let h2 ← hexVal c2
      let h3 ← hexVal c3
      let h4 ← hexVal c4
      pure (((h1 * 16 + h2) * 16 + h3) * 16 + h4, rest)
  | _ => none

/-- Single-character escapes accepted by serde_json. -/
def unescape (e : Char) : Option Char :=
  if e = '"' then some '"'
  else if e = '\\' then some '\\'
  else if e = '/' then some '/'
  else if e = 'b' then some (Char.ofNat 8)
  else if e = 'f' then some (Char.ofNat 12)
  else if e = 'n' then some '\n'
  else if e = 'r' then some '\r'
  else if e = 't' then some '\t'
  else none

/-- String body after the opening quote: plain characters, escapes, and
unicode escapes with surrogate pairs; unescaped control characters and lone
surrogates are rejected, as serde_json does for strict strings. The fuel is
always sufficient when at least the input length plus one. -/
def parseStringRest : Nat → List Char → Option (List Char × List Char)
  | 0, _ => none
  | _, [] => none
  | Nat.succ fuel, c :: rest =>
      if c = '"' then some ([], rest)
      else if c = '\\' then
        match rest with
        | 'u' :: rest2 => do
            let (n, rest3) ← parseHex4 rest2
            if 0xD800 ≤ n ∧ n ≤ 0xDBFF then
              match rest3 with
              | '\\' :: 'u' :: rest4 => do
                  let (lo, rest5) ← parseHex4 rest4
                  if 0xDC00 ≤ lo ∧ lo ≤ 0xDFFF then do
                    let (tail, r) ← parseStringRest fuel rest5
                    pure (Char.ofNat (0x10000 + (n - 0xD800) * 0x400
                      + (lo - 0xDC00)) :: tail, r)
                  else none
              | _ => none
            else if 0xDC00 ≤ n ∧ n ≤ 0xDFFF then none
            else do
              let (tail, r) ← parseStringRest fuel rest3
              pure (Char.ofNat n :: tail, r)
        | e :: rest2 => do
            let ch ← unescape e
            let (tail, r) ← parseStringRest fuel rest2
            pure (ch :: tail, r)
        | [] => none
      else if c.toNat < 32 then none
      else do
        let (tail, r) ← parseStringRest fuel rest
        pure (c :: tail, r)

mutual

/-- serde_json value parsing: skip whitespace, then dispatch on the first
character. The fuel only bounds recursion and is always sufficient when at
least the input length plus one. -/
def parseValue : Nat → List Char → Option (Json × List Char)
  | 0, _ => none
  | Nat.succ fuel, cs =>
      match skipWs cs with
      | [] => none
      | c :: rest =>
          if c = 'n' then
            match rest with
            | 'u' :: 'l' :: 'l' :: r => some (.null, r)
            | _ => none
          else if c = 't' then
            match rest with
            | 'r' :: 'u' :: 'e' :: r => some (.bool true, r)
            | _ => none
          else if c = 'f' then
            match rest with
            | 'a' :: 'l' :: 's' :: 'e' :: r => some (.bool false, r)
            | _ => none
          else if c = '"' then do
            let (chars, r) ← parseStringRest (rest.length + 1) rest
            pure (.str ⟨chars⟩, r)
          else if c = '-' || c.isDigit then do
            let (n, r) ← parseNumber (c :: rest)
            pure (.num n, r)
          else if c = '[' then
            match skipWs rest with
            | ']' :: r => some (.arr [], r)
            | cs2 => parseArrayElems fuel cs2 []
          else if c = '{' then
            match skipWs rest with
            | '}' :: r => some (.obj [], r)
            | cs2 => parseObjectEntries fuel cs2 []
          else none

/-- Array elements after the opening bracket of a non-empty array; trailing
commas are rejected because the recursive parseValue fails on the closing
bracket. -/
def parseArrayElems : Nat → List Char → List Json → Option (Json × List Char)
  | 0, _, _ => none
  | Nat.succ fuel, cs, acc => do
      let (v, r) ← parseValue fuel cs
      match skipWs r with
      | ',' :: r2 => parseArrayElems fuel r2 (acc ++ [v])
      | ']' :: r2 => some (.arr (acc ++ [v]), r2)
      | _ => none

/-- Object entries after the opening brace of a non-empty object; a duplicate
key takes the position of its first occurrence and the value of its last, the
insert behavior of the order-preserving map. -/
def parseObjectEntries : Nat → List Char → List (String × Json) →
    Option (Json × List Char)
  | 0, _, _ => none
  | Nat.succ fuel, cs, acc =>
      match skipWs cs with
      | '"' :: rest => do
          let (kchars, r1) ← parseStringRest (rest.length + 1) rest
          match skipWs r1 with
          | ':' :: r2 => do
              let (v, r3) ← parseValue fuel r2
              let acc2 := insertEntry acc ⟨kchars⟩ v
              match skipWs r3 with
              | ',' :: r4 => parseObjectEntries fuel r4 acc2
              | '}' :: r4 => some (.obj acc2, r4)
              | _ => none
          | _ => none
      | _ => none

end

/-- serde_json from_str: one value, surrounding whitespace allowed, trailing
input rejected. -/
def from_str (s : String) : Option Json :=
  match parseValue (s.data.length + 1) s.data with
  | some (v, rest) =>
      match skipWs rest with
      | [] => some v
      | _ => none
  | none => none

/-- JsonAttributeVisitor.record_str from custom_layer.rs: a string carrying
the sentinel prefix has the remainder parsed as JSON, with the parsed value
stored on success and the raw string (prefix included) stored on failure; a
string without the prefix is stored verbatim. -/
def record_str (d : CustomLayerTracedData) (fieldName value : String) :
    CustomLayerTracedData :=
  let data : Json :=
    match strip_prefix value SPECIAL_JSON_PREFIX with
    | some json_str =>
        match from_str json_str with
        | some json => json
        | none => .str value
    | none => .str value
  d.insert fieldName data

/-- JsonAttributeVisitor.record_value from custom_layer.rs: store the
valuable value serialized through valuable_serde and the json macro. -/
def record_value (d : CustomLayerTracedData) (fieldName : String)
    (v : VValue) : CustomLayerTracedData :=
  d.insert fieldName (serializeVal v)

/-- The typed values the tracing Visit callbacks deliver; the error and debug
cases carry the display and debug text the source formats before storing. -/
inductive FieldValue where
  | f64 (f : F64)
  | i64 (i : Int)
  | u64 (n : Nat)
  | bool (b : Bool)
  | str (s : String)
  | error (msg : String)
  | debug (msg : String)
  | value (v : VValue)

/-- Dispatch of one Visit callback of JsonAttributeVisitor. -/
def recordField (d : CustomLayerTracedData) (fieldName : String) :
    FieldValue → CustomLayerTracedData
  | .f64 f => d.insert fieldName (jsonOfF64 f)
  | .i64 i => d.insert fieldName (.num (numberFromI64 i))
  | .u64 n => d.insert fieldName (.num (numberFromU64 n))
  | .bool b => d.insert fieldName (.bool b)
  | .str s => record_str d fieldName s
  | .error msg => d.insert fieldName (.str msg)
  | .debug msg => d.insert fieldName (.str msg)
  | .value v => record_value d fieldName v

/-- Running the visitor over a whole attribute list (attrs.record or
event.record with a JsonAttributeVisitor). -/
def recordAll (d : CustomLayerTracedData)
    (attrs : List (String × FieldValue)) : CustomLayerTracedData :=
  attrs.foldl (fun d p => recordField d p.1 p.2) d

/-- JsonAttributeVisitor.record_metadata: insert target, then name. -/
def record_metadata (d : CustomLayerTracedData) (target spanName : String) :
    CustomLayerTracedData :=
  (d.insert "target" (.str target)).insert "name" (.str spanName)

/-- CustomJsonLayer.on_new_span: when the span lookup succeeds, build the
record (metadata first, then the initial attribute set) and attach it to the
span; when the lookup fails, attach nothing. -/
def on_new_span (lookupOk : Bool) (target spanName : String)
    (attrs : List (String × FieldValue)) : Option CustomLayerTracedData :=
  if lookupOk then
    some (recordAll (record_metadata CustomLayerTracedData.empty target spanName)
      attrs)
  else
    none

/-- Per-span state visible to event serialization: the optional
CustomLayerTracedData stored in the span extensions. -/
structure SpanData where
  ext : Option CustomLayerTracedData

/-- A registry scope iterator yields spans leaf first; from_root reverses
it. -/
def fromRoot (scope : List SpanData) : List SpanData := scope.reverse

/-- ScopeSerializer from custom_layer.rs: a one-shot cell holding the scope,
modeled as its optional content. -/
structure ScopeSerializer where
  cell : Option (List SpanData)

/-- ScopeSerializer.new wraps the scope in a full cell. -/
def ScopeSerializer.new (scope : List SpanData) : ScopeSerializer :=
  ⟨some scope⟩

/-- The loop body of ScopeSerializer serialization: emit the record of every
span that carries one, skipping the others. -/
def serializeScopeList : List SpanData → List CustomLayerTracedData
  | [] => []
  | span :: rest =>
      match span.ext with
      | some data => data :: serializeScopeList rest
      | none => serializeScopeList rest

/-- The Serialize impl of ScopeSerializer: take the scope out of the cell,
leaving it empty, and when one was present iterate it from the root emitting
each attached record; an empty cell yields an empty sequence. The returned
pair carries the emitted records and the post-call serializer state. -/
def ScopeSerializer.serialize (s : ScopeSerializer) :
    List CustomLayerTracedData × ScopeSerializer :=
  match s.cell with
  | some scope => (serializeScopeList (fromRoot scope), ⟨none⟩)
  | none => ([], ⟨none⟩)

/-- The tracing Level type. -/
inductive Level where
  | TRACE
  | DEBUG
  | INFO
  | WARN
  | ERROR

/-- format_level from custom_layer.rs. -/
def format_level : Level → String
  | .DEBUG => "DEBUG"
  | .ERROR => "ERROR"
  | .INFO => "INFO"
  | .TRACE => "TRACE"
  | .WARN => "WARN"

/-- Context the layer reads during on_event: event_span is the nearest
enclosing span, event_scope the one-shot iterator over the chain, yielded
leaf first by the registry. -/
structure EventCtx where
  eventSpan : Option SpanData
  eventScope : Option (List SpanData)

/-- serialize_on_event from custom_layer.rs, at the level of the document it
serializes: entries are emitted in program order — timestamp, level, target,
fields, then span when the nearest enclosing span carries a record, then
spans when a scope exists. The timestamp string stands for the serialized
capture time. -/
def serialize_on_event (now : String) (level : Level) (target : String)
    (eventAttrs : List (String × FieldValue)) (ctx : EventCtx) :
    List (String × Json) :=
  let data := recordAll CustomLayerTracedData.empty eventAttrs
  let doc := [("timestamp", Json.str now),
              ("level", Json.str (format_level level)),
              ("target", Json.str target),
              ("fields", data.toJson)]
  let doc :=
    match ctx.eventSpan with
    | some span =>
        match span.ext with
        | some d => doc ++ [("span", d.toJson)]
        | none => doc
    | none => doc
  match ctx.eventScope with
  | some scope =>
      doc ++ [("spans",
        Json.arr (((ScopeSerializer.new scope).serialize).1.map
          CustomLayerTracedData.toJson))]
  | none => doc

/-- The output sink: the chunks successfully written so far, and whether
writes currently fail. -/
structure Sink where
  written : List (List Nat)
  failWrites : Bool

/-- Write one whole buffer, reporting success. -/
def Sink.write_all (s : Sink) (bytes : List Nat) : Sink × Bool :=
  if s.failWrites then (s, false)
  else ({ s with written := s.written ++ [bytes] }, true)

/-- CustomJsonLayer.on_event error handling, with the outcome of
serialize_on_event abstracted as its Result: on a serialization error return
at once without touching the sink; on success write the whole serialized
line, returning early when the write fails and discarding the flush result.
The function is total and returns the sink state: no error surfaces to the
caller. -/
def on_event (serialized : Except String (List Nat)) (stdout : Sink) : Sink :=
  match serialized with
  | .error _ => stdout
  | .ok bytes =>
      match stdout.write_all bytes with
      | (stdout1, _) => stdout1

/-- Folding a sequence of insertions into the map. -/
def insertAll (m : CustomLayerTracedData) (ops : List (String × Json)) :
    CustomLayerTracedData :=
  ops.foldl (fun m p => m.insert p.1 p.2) m

/-- Specification-side: the first occurrence of each key, in order of first
appearance. -/
def firstOccurrences : List String → List String
  | [] => []
  | k :: rest => k :: firstOccurrences (rest.filter (fun x => decide (x ≠ k)))
termination_by l => l.length
decreasing_by
  have h := List.length_filter_le (fun x => decide (x ≠ k)) rest
  simp only [List.length_cons]
  omega

/-- Specification-side: the value most recently inserted for a key across an
insertion sequence (first match in the reversed sequence). -/
def lastValue (ops : List (String × Json)) (k : String) : Option Json :=
  findEntry ops.reverse k

/-! Lemmas about the ordered association map. -/

theorem keys_insertEntry (l : List (String × Json)) (k : String) (v : Json) :
    (insertEntry l k v).map Prod.fst =
      if k ∈ l.map Prod.fst then l.map Prod.fst else l.map Prod.fst ++ [k] := by
  induction l with
  | nil => simp [insertEntry]
  | cons p rest ih =>
      obtain ⟨k0, v0⟩ := p
      by_cases h : k0 = k
      · subst h
        simp [insertEntry]
      · have hkk0 : ¬k = k0 := fun e => h (Eq.symm e)
        simp only [insertEntry, if_neg h, List.map_cons]
        rw [ih]
        by_cases hk : k ∈ rest.map Prod.fst
        · simp [hk, List.mem_cons, hkk0]
        · simp [hk, List.mem_cons, hkk0]

theorem find_insertEntry_self (l : List (String × Json)) (k : String)
    (v : Json) : findEntry (insertEntry l k v) k = some v := by
  induction l with
  | nil => simp [insertEntry, findEntry]
  | cons p rest ih =>
      obtain ⟨k0, v0⟩ := p
      by_cases h : k0 = k
      · subst h
        simp [insertEntry, findEntry]
      · simp [insertEntry, findEntry, h, ih]

theorem find_insertEntry_ne (l : List (String × Json)) (k k2 : String)
    (v : Json) (h : k2 ≠ k) :
    findEntry (insertEntry l k v) k2 = findEntry l k2 := by
  have hne : ¬k = k2 := fun e => h (Eq.symm e)
  induction l with
  | nil => simp [insertEntry, findEntry, hne]
  | cons p rest ih =>
      obtain ⟨k0, v0⟩ := p
      by_cases h0 : k0 = k
      · subst h0
        simp [insertEntry, findEntry, hne, ih]
      · by_cases h2 : k0 = k2
        · subst h2
          simp [insertEntry, findEntry, h0]
        · simp [insertEntry, findEntry, h0, h2, ih]

theorem findEntry_append (l1 l2 : List (String × Json)) (k : String) :
    findEntry (l1 ++ l2) k =
      match findEntry l1 k with
      | some v => some v
      | none => findEntry l2 k := by
  induction l1 with
  | nil => simp [findEntry]
  | cons p rest ih =>
      obtain ⟨k0, v0⟩ := p
      by_cases h : k0 = k <;> simp [findEntry, h, ih]

theorem mem_keys_insert (m : CustomLayerTracedData) (k x : String) (v : Json) :
    x ∈ (m.insert k v).keys ↔ (x ∈ m.keys ∨ x = k) := by
  show x ∈ (insertEntry m.entries k v).map Prod.fst ↔ _
  rw [keys_insertEntry]
  by_cases hk : k ∈ m.entries.map Prod.fst
  · simp only [CustomLayerTracedData.keys, if_pos hk]
    constructor
    · exact fun h => Or.inl h
    · rintro (h | rfl)
      · exact h
      · exact hk
  · simp [CustomLayerTracedData.keys, hk]

theorem firstOccurrences_cons (k : String) (l : List String) :
    firstOccurrences (k :: l)
      = k :: firstOccurrences (l.filter (fun x => decide (x ≠ k))) := by
  rw [firstOccurrences]

theorem insertAll_keys (ops : List (String × Json)) :
    ∀ m : CustomLayerTracedData,
      (insertAll m ops).keys =
        m.keys ++ firstOccurrences
          ((ops.map Prod.fst).filter (fun x => decide (x ∉ m.keys))) := by
  induction ops with
  | nil => intro m; simp [insertAll, firstOccurrences]
  | cons p ops ih =>
      intro m
      obtain ⟨k, v⟩ := p
      have step : insertAll m ((k, v) :: ops) = insertAll (m.insert k v) ops := rfl
      rw [step, ih (m.insert k v)]
      by_cases hk : k ∈ m.keys
      · have hkeys : (m.insert k v).keys = m.keys := by
          show (insertEntry m.entries k v).map Prod.fst = _
          rw [keys_insertEntry]
          exact if_pos hk
        rw [hkeys]
        have hhead : ((k :: ops.map Prod.fst).filter
            (fun x => decide (x ∉ m.keys)))
              = (ops.map Prod.fst).filter (fun x => decide (x ∉ m.keys)) := by
          simp [List.filter_cons, hk]
        simp only [List.map_cons]
        rw [hhead]
      · have hkeys : (m.insert k v).keys = m.keys ++ [k] := by
          show (insertEntry m.entries k v).map Prod.fst = _
          rw [keys_insertEntry]
          exact if_neg hk
        rw [hkeys]
        have hhead : ((k :: ops.map Prod.fst).filter
            (fun x => decide (x ∉ m.keys)))
              = k :: (ops.map Prod.fst).filter (fun x => decide (x ∉ m.keys)) := by
          simp [List.filter_cons, hk]
        simp only [List.map_cons]
        rw [hhead, firstOccurrences_cons]
        have hfilter2 :
            (ops.map Prod.fst).filter (fun x => decide (x ∉ m.keys ++ [k]))
              = ((ops.map Prod.fst).filter
                  (fun x => decide (x ∉ m.keys))).filter
                    (fun x => decide (x ≠ k)) := by
          rw [List.filter_filter]
          apply List.filter_congr
          intro x _
          by_cases hxk : x = k
          · subst hxk
            simp
          · by_cases hxm : x ∈ m.keys <;> simp [hxk, hxm]
        rw [hfilter2]
        simp [List.append_assoc]

theorem insertAll_find (ops : List (String × Json)) :
    ∀ (m : CustomLayerTracedData) (k : String),
      (insertAll m ops).find k =
        match lastValue ops k with
        | some v => some v
        | none => m.find k := by
  induction ops with
  | nil => intro m k; simp [insertAll, lastValue, findEntry]
  | cons p ops ih =>
      intro m k
      obtain ⟨k0, v0⟩ := p
      have step : insertAll m ((k0, v0) :: ops) = insertAll (m.insert k0 v0) ops :=
        rfl
      rw [step, ih (m.insert k0 v0) k]
      have hlast : lastValue ((k0, v0) :: ops) k =
          match lastValue ops k with
          | some v => some v
          | none => if k0 = k then some v0 else none := by
        unfold lastValue
        rw [List.reverse_cons, findEntry_append]
        cases findEntry ops.reverse k <;> simp [findEntry]
      rw [hlast]
      cases hcase : lastValue ops k with
      | some v => simp
      | none =>
          by_cases hk : k0 = k
          · subst hk
            simp [CustomLayerTracedData.find, CustomLayerTracedData.insert,
              find_insertEntry_self]
          · simp [CustomLayerTracedData.find, CustomLayerTracedData.insert,
              find_insertEntry_ne _ _ _ _ (fun hh => hk (Eq.symm hh)), hk]

/-- C3: for every insertion sequence (repeated keys included), iteration
yields the keys in first-insertion order, lookup yields the most recently
inserted value for each key, and re-inserting an existing key overwrites the
value without moving the key. -/
theorem c3_insertion_order : ∀ ops : List (String × Json),
    (insertAll CustomLayerTracedData.empty ops).keys
        = firstOccurrences (ops.map Prod.fst)
      ∧ (∀ k, (insertAll CustomLayerTracedData.empty ops).find k
          = lastValue ops k)
      ∧ (∀ (m : CustomLayerTracedData) (k : String) (v : Json),
          ((m.insert k v).keys
              = if k ∈ m.keys then m.keys else m.keys ++ [k])
            ∧ (m.insert k v).find k = some v) := by
  intro ops
  refine ⟨?_, ?_, ?_⟩
  · rw [insertAll_keys ops CustomLayerTracedData.empty]
    have h1 : CustomLayerTracedData.empty.keys = ([] : List String) := rfl
    rw [h1, List.nil_append]
    congr 1
    apply List.filter_eq_self.mpr
    intro a _
    simp
  · intro k
    rw [insertAll_find ops CustomLayerTracedData.empty k]
    cases lastValue ops k <;> rfl
  · intro m k v
    constructor
    · show (insertEntry m.entries k v).map Prod.fst = _
      rw [keys_insertEntry]
      rfl
    · show findEntry (insertEntry m.entries k v) k = some v
      exact find_insertEntry_self m.entries k v

/-! Lemmas about the sentinel prefix. -/

theorem strip_prefix_append (p r : String) :
    strip_prefix (p ++ r) p = some r := by
  unfold strip_prefix
  rw [String.data_append]
  have hpre : p.data.isPrefixOf (p.data ++ r.data) = true :=
    List.isPrefixOf_iff_prefix.mpr (List.prefix_append _ _)
  rw [if_pos hpre, List.drop_left]

/-- C1: record_str on a sentinel-prefixed string parses the remainder as
JSON, storing the parsed value on success and the raw string (prefix
included) on failure; a string without the prefix is stored verbatim. On the
two concrete examples of the claim, the prefixed object literal stores the
same value that parsing the object directly produces, and the non-JSON
remainder leaves the full string, prefix included, untouched. -/
theorem c1_record_str_sentinel :
    (∀ (d : CustomLayerTracedData) (fieldName rest : String) (j : Json),
        from_str rest = some j →
          record_str d fieldName (SPECIAL_JSON_PREFIX ++ rest)
            = d.insert fieldName j)
      ∧ (∀ (d : CustomLayerTracedData) (fieldName rest : String),
          from_str rest = none →
            record_str d fieldName (SPECIAL_JSON_PREFIX ++ rest)
              = d.insert fieldName (.str (SPECIAL_JSON_PREFIX ++ rest)))
      ∧ (∀ (d : CustomLayerTracedData) (fieldName v : String),
          strip_prefix v SPECIAL_JSON_PREFIX = none →
            record_str d fieldName v = d.insert fieldName (.str v))
      ∧ record_str CustomLayerTracedData.empty "k"
            (SPECIAL_JSON_PREFIX ++ "\x7b\"a\":1\x7d")
          = CustomLayerTracedData.empty.insert "k"
              (.obj [("a", .num (.posInt 1))])
      ∧ from_str "\x7b\"a\":1\x7d" = some (.obj [("a", .num (.posInt 1))])
      ∧ record_str CustomLayerTracedData.empty "k"
            (SPECIAL_JSON_PREFIX ++ "not json")
          = CustomLayerTracedData.empty.insert "k"
              (.str (SPECIAL_JSON_PREFIX ++ "not json")) := by
  refine ⟨?_, ?_, ?_, rfl, rfl, rfl⟩
  · intro d fieldName rest j hj
    simp [record_str, strip_prefix_append, hj]
  · intro d fieldName rest hj
    simp [record_str, strip_prefix_append, hj]
  · intro d fieldName v hv
    simp [record_str, hv]

/-- Witness for C1: the parse-success, parse-failure and no-prefix branches
each applied at a concrete input. -/
theorem c1_record_str_sentinel_witness :
    record_str CustomLayerTracedData.empty "w" (SPECIAL_JSON_PREFIX ++ "[1]")
        = CustomLayerTracedData.empty.insert "w" (.arr [.num (.posInt 1)])
      ∧ record_str CustomLayerTracedData.empty "w" (SPECIAL_JSON_PREFIX ++ "nope")
          = CustomLayerTracedData.empty.insert "w"
              (.str (SPECIAL_JSON_PREFIX ++ "nope"))
      ∧ record_str CustomLayerTracedData.empty "w" "plain"
          = CustomLayerTracedData.empty.insert "w" (.str "plain") :=
  ⟨c1_record_str_sentinel.1 _ "w" "[1]" _ rfl,
   c1_record_str_sentinel.2.1 _ "w" "nope" rfl,
   c1_record_str_sentinel.2.2.1 _ "w" "plain" rfl⟩

/-- C10: a sentinel-prefixed remainder that parses as a bare scalar stores
the scalar itself under the field name, not a string: 5 stores the number 5,
true the boolean true, null the null value. -/
theorem c10_sentinel_scalars :
    record_str CustomLayerTracedData.empty "k" (SPECIAL_JSON_PREFIX ++ "5")
        = CustomLayerTracedData.empty.insert "k" (.num (.posInt 5))
      ∧ record_str CustomLayerTracedData.empty "k" (SPECIAL_JSON_PREFIX ++ "true")
          = CustomLayerTracedData.empty.insert "k" (.bool true)
      ∧ record_str CustomLayerTracedData.empty "k" (SPECIAL_JSON_PREFIX ++ "null")
          = CustomLayerTracedData.empty.insert "k" Json.null :=
  ⟨rfl, rfl, rfl⟩

/-- C4: the adapter scalar mapping — null to unit, booleans to booleans, a
number to an unsigned integer when as_u64 succeeds, else to a signed integer
when as_i64 succeeds, else to a double when as_f64 succeeds, else to unit;
the mapping is a total function and never fails. In the three-variant number
model as_f64 always succeeds, so the final unit fallback is the dead last
branch of the source cascade. -/
theorem c4_scalar_mapping :
    as_value .null = .unit
      ∧ (∀ b, as_value (.bool b) = .bool b)
      ∧ (∀ n u, n.as_u64 = some u → as_value (.num n) = .u64 u)
      ∧ (∀ n i, n.as_u64 = none → n.as_i64 = some i →
          as_value (.num n) = .i64 i)
      ∧ (∀ n f, n.as_u64 = none → n.as_i64 = none → n.as_f64 = some f →
          as_value (.num n) = .f64 f)
      ∧ (∀ n, n.as_u64 = none → n.as_i64 = none → n.as_f64 = none →
          as_value (.num n) = .unit) := by
  refine ⟨rfl, fun b => rfl, ?_, ?_, ?_, ?_⟩
  · intro n u hu
    simp [as_value, hu]
  · intro n i hu hi
    simp [as_value, hu, hi]
  · intro n f hu hi hf
    simp [as_value, hu, hi, hf]
  · intro n hu hi hf
    simp [as_value, hu, hi, hf]

/-- Witness for C4: one number of each representability class. -/
theorem c4_scalar_mapping_witness :
    as_value (.num (.posInt 7)) = .u64 7
      ∧ as_value (.num (.negInt (-3))) = .i64 (-3)
      ∧ as_value (.num (.float ⟨true, "2.5"⟩)) = .f64 ⟨true, "2.5"⟩ :=
  ⟨c4_scalar_mapping.2.2.1 _ 7 rfl,
   c4_scalar_mapping.2.2.2.1 _ (-3) rfl rfl,
   c4_scalar_mapping.2.2.2.2.1 _ ⟨true, "2.5"⟩ rfl rfl rfl⟩

/-- C9: when document serialization fails, on_event returns with the sink
untouched — nothing, in particular nothing partial, is written — and, being
a total function into the sink state, it surfaces no error and no panic to
the caller: the event is silently abandoned. -/
theorem c9_event_abandoned_silently (e : String) (stdout : Sink) :
    on_event (.error e) stdout = stdout := rfl

/-! Lemmas about the scope serializer. -/

theorem serializeScopeList_eq_filterMap (l : List SpanData) :
    serializeScopeList l = l.filterMap SpanData.ext := by
  induction l with
  | nil => rfl
  | cons s rest ih =>
      cases hs : s.ext <;> simp [serializeScopeList, hs, ih]

/-- C6: a ScopeSerializer over a non-empty chain whose spans all carry
records yields a non-empty sequence on the first serialization and the empty
sequence — not an error — on the second: the traversal is consumed at most
once. -/
theorem c6_single_consumption (scope : List SpanData)
    (h1 : scope ≠ []) (h2 : ∀ s ∈ scope, s.ext ≠ none) :
    ((ScopeSerializer.new scope).serialize).1 ≠ []
      ∧ (((ScopeSerializer.new scope).serialize).2.serialize).1 = [] := by
  constructor
  · intro hcontra
    have h3 : scope.reverse.filterMap SpanData.ext = [] := by
      rw [← serializeScopeList_eq_filterMap]
      exact hcontra
    rw [List.filterMap_eq_nil_iff] at h3
    cases scope with
    | nil => exact h1 rfl
    | cons s rest =>
        exact h2 s (List.mem_cons_self s rest) (h3 s (by simp))
  · rfl

/-- Witness for C6: a one-span chain carrying a record. -/
theorem c6_single_consumption_witness :
    ((ScopeSerializer.new [⟨some CustomLayerTracedData.empty⟩]).serialize).1 ≠ []
      ∧ (((ScopeSerializer.new
            [⟨some CustomLayerTracedData.empty⟩]).serialize).2.serialize).1
          = [] :=
  c6_single_consumption [⟨some CustomLayerTracedData.empty⟩]
    (by simp)
    (by rintro s hs; simp at hs; subst hs; simp)

theorem findEntry_spans_last (doc0 : List (String × Json)) (v : Json)
    (h : findEntry doc0 "spans" = none) :
    findEntry (doc0 ++ [("spans", v)]) "spans" = some v := by
  rw [findEntry_append, h]
  simp [findEntry]

/-- C5: with the scope of an event being its ancestor chain (handed leaf
first by the registry), the spans entry of the output document is exactly
the list of attached records in root-to-leaf order: every ancestor without a
record is skipped and the relative order of the rest is preserved (filterMap
of the record over the root-to-leaf chain). -/
theorem c5_spans_root_to_leaf (ancestors : List SpanData)
    (spanCtx : Option SpanData) (now : String) (level : Level)
    (target : String) (attrs : List (String × FieldValue)) :
    findEntry
        (serialize_on_event now level target attrs
          ⟨spanCtx, some ancestors.reverse⟩)
        "spans"
      = some (.arr ((ancestors.filterMap SpanData.ext).map
          CustomLayerTracedData.toJson)) := by
  have hscope : ((ScopeSerializer.new ancestors.reverse).serialize).1
      = ancestors.filterMap SpanData.ext := by
    show serializeScopeList (fromRoot ancestors.reverse) = _
    rw [fromRoot, List.reverse_reverse, serializeScopeList_eq_filterMap]
  cases spanCtx with
  | none =>
      simp only [serialize_on_event, hscope]
      exact findEntry_spans_last _ _ rfl
  | some s =>
      cases hs : s.ext with
      | none =>
          simp only [serialize_on_event, hs, hscope]
          exact findEntry_spans_last _ _ rfl
      | some d0 =>
          simp only [serialize_on_event, hs, hscope]
          exact findEntry_spans_last _ _ rfl

/-- C2: the keys of the assembled event document are always timestamp,
level, target, fields, in that fixed order, followed only by span (exactly
when the nearest enclosing span exists and carries a record) and then spans
(exactly when a scope exists): span and spans never precede the fixed four
and appear only with an enclosing span context, whatever the attribute
content. -/
theorem c2_document_key_order (now : String) (level : Level) (target : String)
    (attrs : List (String × FieldValue)) (ctx : EventCtx) :
    (serialize_on_event now level target attrs ctx).map Prod.fst
      = ["timestamp", "level", "target", "fields"]
          ++ (match ctx.eventSpan with
              | some s =>
                  match s.ext with
                  | some _ => ["span"]
                  | none => []
              | none => [])
          ++ (match ctx.eventScope with
              | some _ => ["spans"]
              | none => []) := by
  obtain ⟨es, esc⟩ := ctx
  cases es with
  | none => cases esc <;> simp [serialize_on_event]
  | some s =>
      cases hs : s.ext <;> cases esc <;> simp [serialize_on_event, hs]

/-! Round trip of the adapter with valuable_serde serialization. -/

/-- Induction principle for Json giving element-wise hypotheses for arrays
and objects. -/
def Json.indOn {P : Json → Prop}
    (hnull : P .null) (hbool : ∀ b, P (.bool b)) (hnum : ∀ n, P (.num n))
    (hstr : ∀ s, P (.str s))
    (harr : ∀ items, (∀ j ∈ items, P j) → P (.arr items))
    (hobj : ∀ entries, (∀ p ∈ entries, P p.2) → P (.obj entries)) :
    ∀ j, P j
  | .null => hnull
  | .bool b => hbool b
  | .num n => hnum n
  | .str s => hstr s
  | .arr items =>
      harr items (fun j hj => Json.indOn hnull hbool hnum hstr harr hobj j)
  | .obj entries =>
      hobj entries (fun p hp => Json.indOn hnull hbool hnum hstr harr hobj p.2)
termination_by j => sizeOf j
decreasing_by
  · have h1 := List.sizeOf_lt_of_mem hj
    simp only [Json.arr.sizeOf_spec]
    omega
  · have h1 := List.sizeOf_lt_of_mem hp
    have h2 : sizeOf p.2 < sizeOf p := by
      obtain ⟨a, b⟩ := p
      simp
    simp only [Json.obj.sizeOf_spec]
    omega

theorem serializeVal_as_value (j : Json) :
    serializeVal (as_value j) = serializeAdapted j := by
  cases j with
  | num n => cases n <;> rfl
  | _ => rfl

theorem serializeAdaptedNum_wf (n : JNumber) (h : n.wfNum = true) :
    serializeAdaptedNum n = .num n := by
  cases n with
  | posInt m => rfl
  | negInt i =>
      have hi : ¬(0 : Int) ≤ i := by
        simp [JNumber.wfNum] at h
        omega
      simp [serializeAdaptedNum, JNumber.as_u64, JNumber.as_i64, numberFromI64,
        hi]
  | float f =>
      have hf : f.finite = true := by simpa [JNumber.wfNum] using h
      simp [serializeAdaptedNum, JNumber.as_u64, JNumber.as_i64,
        JNumber.as_f64, jsonOfF64, hf]

theorem wfList_forall (l : List Json) :
    Json.wfList l = true ↔ ∀ j ∈ l, Json.wf j = true := by
  induction l with
  | nil => simp [Json.wfList]
  | cons j rest ih => simp [Json.wfList, ih]

theorem wfObj_forall (l : List (String × Json)) :
    Json.wfObj l = true ↔ ∀ p ∈ l, Json.wf p.2 = true := by
  induction l with
  | nil => simp [Json.wfObj]
  | cons p rest ih =>
      obtain ⟨k, v⟩ := p
      simp [Json.wfObj, ih]

theorem visitList_id (l : List Json) (h : ∀ j ∈ l, serializeAdapted j = j) :
    visitList l = l := by
  induction l with
  | nil => rfl
  | cons j rest ih =>
      simp [visitList, h j (by simp), ih (fun x hx => h x (by simp [hx]))]

theorem visitObj_id (l : List (String × Json))
    (h : ∀ p ∈ l, serializeAdapted p.2 = p.2) : visitObj l = l := by
  induction l with
  | nil => rfl
  | cons p rest ih =>
      obtain ⟨k, v⟩ := p
      simp [visitObj, h (k, v) (by simp), ih (fun x hx => h x (by simp [hx]))]

theorem serializeAdapted_wf : ∀ j : Json, j.wf = true → serializeAdapted j = j := by
  intro j
  induction j using Json.indOn with
  | hnull => intro _; rfl
  | hbool b => intro _; rfl
  | hstr s => intro _; rfl
  | hnum n =>
      intro h
      show serializeAdaptedNum n = .num n
      exact serializeAdaptedNum_wf n (by simpa [Json.wf] using h)
  | harr items ih =>
      intro h
      have hmem : ∀ j ∈ items, Json.wf j = true :=
        (wfList_forall items).mp (by simpa [Json.wf] using h)
      show Json.arr (visitList items) = Json.arr items
      rw [visitList_id items (fun j hj => ih j hj (hmem j hj))]
  | hobj entries ih =>
      intro h
      have hmem : ∀ p ∈ entries, Json.wf p.2 = true :=
        (wfObj_forall entries).mp (by simpa [Json.wf] using h)
      show Json.obj (visitObj entries) = Json.obj entries
      rw [visitObj_id entries (fun p hp => ih p hp (hmem p hp))]

/-- C7: adapting a well-formed structured document and recording it through
the structured-value path as one field stores a document identical to the
input: the adapter followed by valuable_serde serialization is the identity
on tree-shaped documents, preserving object key order and array element
order. -/
theorem c7_adapter_round_trip (d : CustomLayerTracedData) (fieldName : String)
    (j : Json) (h : j.wf = true) :
    record_value d fieldName (as_value j) = d.insert fieldName j := by
  unfold record_value
  rw [serializeVal_as_value, serializeAdapted_wf j h]

/-- Witness for C7 at the document built from the object with x true and y
the array 1, 2, 3. -/
theorem c7_adapter_round_trip_witness :
    Json.wf (.obj [("x", .bool true),
        ("y", .arr [.num (.posInt 1), .num (.posInt 2), .num (.posInt 3)])])
        = true
      ∧ record_value CustomLayerTracedData.empty "value"
            (as_value (.obj [("x", .bool true),
              ("y", .arr [.num (.posInt 1), .num (.posInt 2),
                .num (.posInt 3)])]))
          = CustomLayerTracedData.empty.insert "value"
              (.obj [("x", .bool true),
                ("y", .arr [.num (.posInt 1), .num (.posInt 2),
                  .num (.posInt 3)])]) :=
  ⟨rfl, c7_adapter_round_trip _ _ _ rfl⟩

/-! Span creation attaches metadata first. -/

theorem keys_insert_extend (d : CustomLayerTracedData) (k : String)
    (v : Json) : ∃ r, (d.insert k v).keys = d.keys ++ r := by
  show ∃ r, (insertEntry d.entries k v).map Prod.fst = _
  rw [keys_insertEntry]
  by_cases hk : k ∈ d.entries.map Prod.fst
  · exact ⟨[], by simp [hk, CustomLayerTracedData.keys]⟩
  · exact ⟨[k], by simp [hk, CustomLayerTracedData.keys]⟩

theorem keys_recordField (d : CustomLayerTracedData) (fieldName : String)
    (fv : FieldValue) :
    ∃ r, (recordField d fieldName fv).keys = d.keys ++ r := by
  cases fv <;> exact keys_insert_extend _ _ _

theorem keys_recordAll (attrs : List (String × FieldValue)) :
    ∀ d : CustomLayerTracedData,
      ∃ r, (recordAll d attrs).keys = d.keys ++ r := by
  induction attrs with
  | nil => intro d; exact ⟨[], by simp [recordAll]⟩
  | cons p rest ih =>
      intro d
      have step : recordAll d (p :: rest)
          = recordAll (recordField d p.1 p.2) rest := rfl
      obtain ⟨r1, h1⟩ := keys_recordField d p.1 p.2
      obtain ⟨r2, h2⟩ := ih (recordField d p.1 p.2)
      exact ⟨r1 ++ r2, by rw [step, h2, h1, List.append_assoc]⟩

/-- C8: a successfully observed span creation attaches a record that
contains target and name, inserted at creation time before any user
attribute, so they are the first two keys in iteration order. -/
theorem c8_metadata_first : ∀ (target spanName : String)
    (attrs : List (String × FieldValue)),
    ∃ (d : CustomLayerTracedData) (rest : List String),
      on_new_span true target spanName attrs = some d
        ∧ d.keys = "target" :: "name" :: rest := by
  intro target spanName attrs
  obtain ⟨r, hr⟩ := keys_recordAll attrs
    (record_metadata CustomLayerTracedData.empty target spanName)
  exact ⟨_, r, rfl, by rw [hr]; rfl⟩

end TracingValuable
